import Mathlib

/-!
Shallow embedding of the dataset-composition and sampling subsystem of
Fast-LLM (`fast_llm/data/dataset/config.py` and `fast_llm/utils.py`),
together with theorems settling the frozen claims about it.

Python floats are idealized as exact rationals (`ℚ`); the one real-valued
operation, the `** 0.5` square root in the legacy blending formula, is
idealized as `Real.sqrt`.  Machine integers are unbounded in Python, so
`ℤ`/`ℕ` are used directly.  Fallible construction/validation is embedded
as `Option`-returning functions.
-/

namespace FastLLM

/-- Embeds `SamplingConfig` (config.py, lines 17-27): a dataset-dependent
sampling configuration holding a single integer `seed` field
(default 784569). -/
structure SamplingConfig where
  seed : ℤ
deriving DecidableEq

/-- A partial `SamplingConfig` used as an override patch.  Modelled from the
spec: the config framework (`fast_llm/config.py`, outside the excerpt)
tracks which fields of a config were explicitly set; `none` stands for an
unset field, `some v` for an explicitly set one. -/
structure SamplingConfigPatch where
  seed : Option ℤ
deriving DecidableEq

/-- Embeds `SamplingParameters` (config.py, lines 30-36): usage-dependent
sampling parameters, here the requested number of samples. -/
structure SamplingParameters where
  num_samples : ℕ
deriving DecidableEq

/-- Embeds the distributed information reached through
`self.distributed.config` in `get_next_rank` (config.py, line 63): a rank
and a world size. -/
structure Distributed where
  rank : ℕ
  world_size : ℕ
deriving DecidableEq

/-- A Python `itertools.count` iterator state: `next` yields `value` and
advances to `value + 1`. -/
structure CountIterator where
  value : ℕ
deriving DecidableEq

/-- Calling `next` on an `itertools.count` iterator returns the current
value and the advanced iterator. -/
def CountIterator.next (it : CountIterator) : ℕ × CountIterator :=
  (it.value, ⟨it.value + 1⟩)

/-- Calling the `itertools.count` class with no argument constructs a fresh
iterator starting at 0. -/
def itertoolsCount : CountIterator :=
  ⟨0⟩

/-- Embeds `SamplingData` (config.py, lines 39-54).  The source field
`_rank_counter: typing.Iterator[int] = itertools.count` defaults to the
`itertools.count` class itself (a callable producing a fresh iterator),
not to an iterator instance; it is embedded as a function
`Unit → CountIterator` whose default is `fun _ => itertoolsCount`. -/
structure SamplingData where
  config : SamplingConfig
  parameters : SamplingParameters
  cache_directory : Option String
  distributed : Distributed
  dataset_name : String
  rank_counter : Unit → CountIterator := fun _ => itertoolsCount

/-- Modelled from the spec: the config merge primitive used by
`update_config` (`Config.from_dict` with `UpdateType.update`, in
`fast_llm/config.py`, outside the excerpt) merges only the explicitly-set
fields of the patch into the base config; unset fields keep the base
value. -/
def mergeSamplingConfig (base : SamplingConfig) (patch : SamplingConfigPatch) : SamplingConfig :=
  ⟨patch.seed.getD base.seed⟩

/-- Embeds `SamplingData.update_config` (config.py, lines 56-59):
`dataclasses.replace(self, config=merged)` builds a new `SamplingData`
whose `config` is the merge of `self.config` with the patch and whose
other fields (including the rank-counter callable) are those of `self`. -/
def update_config (s : SamplingData) (update : SamplingConfigPatch) : SamplingData :=
  ⟨mergeSamplingConfig s.config update, s.parameters, s.cache_directory,
    s.distributed, s.dataset_name, s.rank_counter⟩

/-- Embeds `SamplingData.get_next_rank` (config.py, lines 61-63):
`next(self._rank_counter()) % self.distributed.config.world_size`.
`self._rank_counter()` calls the stored `itertools.count` class, making a
fresh iterator starting at 0 on every call, so `next(...)` is the first
element of a fresh counter. -/
def get_next_rank (s : SamplingData) : ℕ :=
  (s.rank_counter ()).next.1 % s.distributed.world_size

/-- The results of `k` successive `get_next_rank()` calls on one
`SamplingData`.  A call inspects only the stored counter callable and
returns; it does not rebind any field of `self`, so every successive call
acts on the same state. -/
def get_next_rank_calls (s : SamplingData) (k : ℕ) : List ℕ :=
  (List.range k).map fun _ => get_next_rank s

/-- Embeds `normalize_probabilities` (utils.py, lines 266-274): asserts
every entry is nonnegative and the sum is positive, then divides each
entry by the sum.  Assertion failure is embedded as `none`. -/
def normalize_probabilities (p : List ℚ) : Option (List ℚ) :=
  if (∀ x ∈ p, 0 ≤ x) ∧ 0 < p.sum then some (p.map fun x => x / p.sum) else none

/-- Embeds the dataset-configuration node hierarchy of config.py as a tree:
`leaf` stands for an external indexed dataset of known length (an
`IndexedDatasetConfig` leaf), `concatenated` for `ConcatenatedDatasetConfig`
(lines 96-122), `slice` for `DatasetSliceConfig` (lines 125-165),
`sampledUpdate` for `SampledDatasetUpdateConfig` (lines 168-186), and
`blended` for `BlendedDatasetConfig` (lines 189-258). -/
inductive DatasetConfigTree where
  | leaf (size : ℕ)
  | concatenated (name : String) (datasets : List DatasetConfigTree)
  | slice (dataset : DatasetConfigTree) (begin_ : ℚ) (end_ : ℚ)
  | sampledUpdate (sampling : SamplingConfigPatch) (dataset : DatasetConfigTree)
  | blended (name : String) (datasets : List DatasetConfigTree) (weights : List ℚ)
      (legacy : Bool)

mutual

/-- Construction-time validation of a config node, returning the validated
(possibly rewritten) node.  Per the source:
`ConcatenatedDatasetConfig.datasets` carries
`valid=check_field(... len(x) > 0)` (line 113); `DatasetSliceConfig`
declares no validator on `begin`/`end` and overrides no `_validate`, so no
constraint relates them at construction; `BlendedDatasetConfig._validate`
(lines 213-217) rewrites `self.weights = normalize_probabilities(self.weights)`,
then checks `len(datasets) >= 2` and `len(datasets) == len(weights)`.
Nested configs are validated recursively by the framework; the framework
trigger at construction is modelled from the spec (validation is eager,
at construction, before any resolution). -/
def validate : DatasetConfigTree → Option DatasetConfigTree
  | .leaf size => some (.leaf size)
  | .concatenated name datasets =>
    (validateList datasets).bind fun ds =>
      if 0 < datasets.length then some (.concatenated name ds) else none
  | .slice dataset b e =>
    (validate dataset).map fun d => .slice d b e
  | .sampledUpdate sampling dataset =>
    (validate dataset).map fun d => .sampledUpdate sampling d
  | .blended name datasets weights legacy =>
    (normalize_probabilities weights).bind fun ws =>
      (validateList datasets).bind fun ds =>
        if 2 ≤ datasets.length ∧ datasets.length = ws.length then
          some (.blended name ds ws legacy)
        else none

/-- Validation of a list of child configs: all must validate. -/
def validateList : List DatasetConfigTree → Option (List DatasetConfigTree)
  | [] => some []
  | d :: ds =>
    (validate d).bind fun d2 =>
      (validateList ds).bind fun ds2 => some (d2 :: ds2)

end

/-- Python's built-in `round`: round half to even (banker's rounding),
used by `DatasetSliceConfig._build` (config.py, lines 163-164). -/
def pyRound (q : ℚ) : ℤ :=
  if q - ⌊q⌋ < 1 / 2 then ⌊q⌋
  else if 1 / 2 < q - ⌊q⌋ then ⌊q⌋ + 1
  else if ⌊q⌋ % 2 = 0 then ⌊q⌋ else ⌊q⌋ + 1

/-- Embeds the bound computation of `DatasetSliceConfig._build`
(config.py, lines 157-165): over a dataset of length `size`, the slice
bounds passed to `DatasetSlice` are `round(begin * size)` and
`round(end * size)`. -/
def datasetSliceBounds (b e : ℚ) (size : ℕ) : ℤ × ℤ :=
  (pyRound (b * size), pyRound (e * size))

/-- Modelled from the spec: the `DatasetSlice` class itself
(`fast_llm/data/dataset/indexed.py`) is outside the excerpt; per the spec
the resulting slice has length `hi - lo` and its element `i` is the
underlying element `lo + i`. -/
def datasetSliceLength (b e : ℚ) (size : ℕ) : ℤ :=
  (datasetSliceBounds b e size).2 - (datasetSliceBounds b e size).1

/-- Embeds the per-branch seed of `BlendedDatasetConfig.build_and_sample`
(config.py, line 247): branch `i` is resolved with seed
`sampling.config.seed + i * (0 if self.legacy else 697)`. -/
def blendedBranchSeed (legacy : Bool) (seed : ℤ) (i : ℕ) : ℤ :=
  seed + i * (if legacy then 0 else 697)

/-- Embeds the per-branch requested sample count of
`BlendedDatasetConfig.build_and_sample` (config.py, lines 234-244): in
legacy mode `ceil(w * (n + 5 * (n * (1 - w)) ** 0.5))`, otherwise
`ceil(w * n) + 1`. -/
noncomputable def blendedBranchNumSamples (legacy : Bool) (w : ℚ) (n : ℕ) : ℤ :=
  if legacy then ⌈(w : ℝ) * (n + 5 * Real.sqrt (n * (1 - (w : ℝ))))⌉
  else ⌈w * (n : ℚ)⌉ + 1

/-- Embeds `SampledDatasetUpdateConfig.build_and_sample` (config.py, lines
185-186): the sampling context passed to the wrapped dataset is
`data.update_config(self.sampling)`. -/
def sampledUpdateContext (sampling : SamplingConfigPatch) (data : SamplingData) : SamplingData :=
  update_config data sampling

/-! ### Helper lemmas -/

theorem normalize_probabilities_pos (p : List ℚ) (h1 : ∀ x ∈ p, 0 ≤ x) (h2 : 0 < p.sum) :
    normalize_probabilities p = some (p.map fun x => x / p.sum) := by
  rw [normalize_probabilities, if_pos ⟨h1, h2⟩]

theorem normalize_probabilities_fail (p : List ℚ) (h : ¬((∀ x ∈ p, 0 ≤ x) ∧ 0 < p.sum)) :
    normalize_probabilities p = none := by
  rw [normalize_probabilities, if_neg h]

theorem sum_map_div (p : List ℚ) (s : ℚ) : (p.map fun x => x / s).sum = p.sum / s := by
  induction p with
  | nil => simp
  | cons a t ih => simp [ih, add_div]

theorem normalize_probabilities_isSome (p : List ℚ) :
    (normalize_probabilities p).isSome ↔ (∀ x ∈ p, 0 ≤ x) ∧ 0 < p.sum := by
  by_cases h : (∀ x ∈ p, 0 ≤ x) ∧ 0 < p.sum
  · simp [normalize_probabilities, h]
  · simp [normalize_probabilities, h, if_neg h]

theorem validateList_isSome (ds : List DatasetConfigTree) :
    (validateList ds).isSome ↔ ∀ d ∈ ds, (validate d).isSome := by
  induction ds with
  | nil => simp [validateList]
  | cons d t ih =>
    rw [validateList]
    cases hd : validate d with
    | none => simp [hd]
    | some d2 =>
      cases ht : validateList t with
      | none => simp [hd, ht, ← ih]
      | some t2 => simp [hd, ht, ← ih]

theorem validateList_length (ds ds2 : List DatasetConfigTree)
    (h : validateList ds = some ds2) : ds2.length = ds.length := by
  induction ds generalizing ds2 with
  | nil =>
    rw [validateList] at h
    cases h
    rfl
  | cons d t ih =>
    rw [validateList] at h
    cases hd : validate d with
    | none => simp [hd] at h
    | some d2 =>
      cases ht : validateList t with
      | none => simp [hd, ht] at h
      | some t2 =>
        rw [hd, ht] at h
        simp only [Option.some_bind, Option.some_inj] at h
        subst h
        simp [ih t2 ht]

/-! ### Claims -/

/-- C9: for every list of nonnegative rationals with positive sum,
`normalize_probabilities` returns the list of entries divided by the sum
(hence of the same length, summing to 1, with the input's pairwise
ratios); it fails (assertion error, embedded as `none`) whenever some
entry is negative or the sum is not positive. -/
theorem normalize_probabilities_correct (p : List ℚ) :
    ((∀ x ∈ p, 0 ≤ x) → 0 < p.sum →
      normalize_probabilities p = some (p.map fun x => x / p.sum) ∧
      (p.map fun x => x / p.sum).length = p.length ∧
      (p.map fun x => x / p.sum).sum = 1) ∧
    (((∃ x ∈ p, x < 0) ∨ p.sum ≤ 0) → normalize_probabilities p = none) := by
  constructor
  · intro h1 h2
    refine ⟨normalize_probabilities_pos p h1 h2, by simp, ?_⟩
    rw [sum_map_div, div_self (ne_of_gt h2)]
  · intro h
    refine normalize_probabilities_fail p ?_
    rintro ⟨h1, h2⟩
    rcases h with ⟨x, hx, hneg⟩ | hsum
    · exact absurd (h1 x hx) (not_le.mpr hneg)
    · exact absurd h2 (not_lt.mpr hsum)

/-- Witness for C9 at the concrete inputs `[1, 3]` and `[1, -1]`. -/
theorem normalize_probabilities_correct_witness :
    normalize_probabilities [1, 3] = some [1 / 4, 3 / 4] ∧
    normalize_probabilities [1, -1] = none := by
  constructor
  · have h := (normalize_probabilities_correct [1, 3]).1 (by norm_num) (by norm_num)
    rw [h.1]
    norm_num
  · exact (normalize_probabilities_correct [1, -1]).2
      (Or.inl ⟨-1, by norm_num, by norm_num⟩)

/-- C10: `normalize_probabilities` is idempotent over exact arithmetic:
applied to its own output (whose entries are nonnegative and sum to 1),
it returns that output unchanged. -/
theorem normalize_probabilities_idem (p q : List ℚ) (h1 : ∀ x ∈ p, 0 ≤ x)
    (h2 : 0 < p.sum) (hq : normalize_probabilities p = some q) :
    normalize_probabilities q = some q := by
  rw [normalize_probabilities_pos p h1 h2] at hq
  cases hq
  have hsum : (p.map fun x => x / p.sum).sum = 1 := by
    rw [sum_map_div, div_self (ne_of_gt h2)]
  have hnn : ∀ x ∈ (p.map fun x => x / p.sum), 0 ≤ x := by
    intro x hx
    rcases List.mem_map.mp hx with ⟨a, ha, rfl⟩
    exact div_nonneg (h1 a ha) (le_of_lt h2)
  rw [normalize_probabilities_pos _ hnn (by rw [hsum]; norm_num), hsum]
  simp

/-- Witness for C10 at the concrete input `[1, 3]`. -/
theorem normalize_probabilities_idem_witness :
    normalize_probabilities [1 / 4, 3 / 4] = some [1 / 4, 3 / 4] := by
  refine normalize_probabilities_idem [1, 3] [1 / 4, 3 / 4] (by norm_num) (by norm_num) ?_
  norm_num [normalize_probabilities]

/-- C4: a `BlendedDatasetConfig` validates (construction succeeds) exactly
when the datasets and weights lists have equal length at least 2, every
weight is nonnegative and the weights have positive sum, with every child
config itself valid; in particular construction fails, at construction
time, whenever any of these conditions is violated. -/
theorem blended_validation_iff (name : String) (ds : List DatasetConfigTree)
    (ws : List ℚ) (legacy : Bool) :
    (validate (.blended name ds ws legacy)).isSome ↔
      (ds.length = ws.length ∧ 2 ≤ ds.length ∧ (∀ w ∈ ws, 0 ≤ w) ∧ 0 < ws.sum ∧
        ∀ d ∈ ds, (validate d).isSome) := by
  have hnorm := normalize_probabilities_isSome ws
  have hlist := validateList_isSome ds
  rw [validate]
  cases hn : normalize_probabilities ws with
  | none =>
    rw [hn] at hnorm
    simp only [Option.isSome_none, Bool.false_eq_true, false_iff] at hnorm
    simp only [Option.none_bind, Option.isSome_none, Bool.false_eq_true, false_iff]
    rintro ⟨_, _, h3, h4, _⟩
    exact hnorm ⟨h3, h4⟩
  | some ws2 =>
    rw [hn] at hnorm
    simp only [Option.isSome_some, true_iff] at hnorm
    have hmap : ws2 = ws.map fun x => x / ws.sum := by
      have h2 := normalize_probabilities_pos ws hnorm.1 hnorm.2
      rw [hn] at h2
      exact Option.some_inj.mp h2
    simp only [Option.some_bind]
    cases hd : validateList ds with
    | none =>
      rw [hd] at hlist
      simp only [Option.isSome_none, Bool.false_eq_true, false_iff] at hlist
      simp only [Option.none_bind, Option.isSome_none, Bool.false_eq_true, false_iff]
      rintro ⟨_, _, _, _, h5⟩
      exact hlist h5
    | some ds2 =>
      rw [hd] at hlist
      simp only [Option.isSome_some, true_iff] at hlist
      simp only [Option.some_bind]
      by_cases hc : 2 ≤ ds.length ∧ ds.length = ws2.length
      · rw [if_pos hc]
        simp only [Option.isSome_some, true_iff]
        refine ⟨?_, hc.1, hnorm.1, hnorm.2, hlist⟩
        rw [hc.2, hmap]
        simp
      · rw [if_neg hc]
        simp only [Option.isSome_none, Bool.false_eq_true, false_iff]
        rintro ⟨h1, h2, _, _, _⟩
        refine hc ⟨h2, ?_⟩
        rw [hmap]
        simpa using h1

/-- C3 (amended): for every `BlendedDatasetConfig` that passes validation,
the stored (normalized) weights are nonnegative, sum to 1, and number at
least 2.  (Strict positivity of each weight does not hold: a raw weight
of 0 survives normalization.) -/
theorem blended_validated_weights (name : String) (ds : List DatasetConfigTree)
    (ws : List ℚ) (legacy : Bool) (t : DatasetConfigTree)
    (h : validate (.blended name ds ws legacy) = some t) :
    ∃ ds2 ws2, t = .blended name ds2 ws2 legacy ∧
      (∀ w ∈ ws2, 0 ≤ w) ∧ ws2.sum = 1 ∧ 2 ≤ ws2.length := by
  rw [validate] at h
  cases hn : normalize_probabilities ws with
  | none => simp [hn] at h
  | some ws2 =>
    have hnorm := normalize_probabilities_isSome ws
    rw [hn] at hnorm
    simp only [Option.isSome_some, true_iff] at hnorm
    have hmap : ws2 = ws.map fun x => x / ws.sum := by
      have h2 := normalize_probabilities_pos ws hnorm.1 hnorm.2
      rw [hn] at h2
      exact Option.some_inj.mp h2
    rw [hn] at h
    simp only [Option.some_bind] at h
    cases hd : validateList ds with
    | none => simp [hd] at h
    | some ds2 =>
      rw [hd] at h
      simp only [Option.some_bind] at h
      by_cases hc : 2 ≤ ds.length ∧ ds.length = ws2.length
      · rw [if_pos hc] at h
        cases h
        refine ⟨ds2, ws2, rfl, ?_, ?_, by rw [← hc.2]; exact hc.1⟩
        · intro w hw
          rw [hmap] at hw
          rcases List.mem_map.mp hw with ⟨a, ha, rfl⟩
          exact div_nonneg (hnorm.1 a ha) (le_of_lt hnorm.2)
        · rw [hmap, sum_map_div, div_self (ne_of_gt hnorm.2)]
      · rw [if_neg hc] at h
        cases h

/-- Witness for C3 (amended) at a concrete blend of two leaves with raw
weights `[1, 3]`. -/
theorem blended_validated_weights_witness :
    ∃ ds2 ws2,
      DatasetConfigTree.blended "b" [.leaf 3, .leaf 4] [1 / 4, 3 / 4] false =
        .blended "b" ds2 ws2 false ∧
      (∀ w ∈ ws2, 0 ≤ w) ∧ ws2.sum = 1 ∧ 2 ≤ ws2.length := by
  refine blended_validated_weights "b" [.leaf 3, .leaf 4] [1, 3] false _ ?_
  norm_num [validate, validateList, normalize_probabilities]

/-- C3 counterexample: the blend of two leaves with raw weights `[0, 1]`
passes validation, stores the weights `[0, 1]` unchanged, and the stored
weight 0 is not strictly positive. -/
theorem blended_zero_weight_accepted :
    validate (.blended "blended" [.leaf 1, .leaf 1] [0, 1] false) =
      some (.blended "blended" [.leaf 1, .leaf 1] [0, 1] false) ∧
    ¬ ∀ w ∈ ([0, 1] : List ℚ), 0 < w := by
  constructor
  · norm_num [validate, validateList, normalize_probabilities]
  · intro h
    exact absurd (h 0 (by norm_num)) (by norm_num)

/-- C1 (amended): constructing a `DatasetSliceConfig` performs no
validation of the slice range: the slice node validates exactly when its
child does, for any `begin`/`end` values whatsoever (the fields declare no
validator and the class overrides no `_validate`). -/
theorem dataset_slice_no_range_validation (d : DatasetConfigTree) (b e : ℚ) :
    (validate (.slice d b e)).isSome ↔ (validate d).isSome := by
  rw [validate]
  cases hd : validate d <;> simp

/-- C1 counterexample: a `DatasetSliceConfig` with `begin=0.6, end=0.4`
constructs successfully (no `ConfigError`). -/
theorem dataset_slice_invalid_range_accepted :
    validate (.slice (.leaf 10) (6 / 10) (4 / 10)) =
      some (.slice (.leaf 10) (6 / 10) (4 / 10)) := by
  simp [validate]

/-- C2 (evaluation of the code at the failing input): with `world_size = 4`,
eight successive `get_next_rank()` calls all return 0 — not
`[0, 1, 2, 3, 0, 1, 2, 3]` — because `next(self._rank_counter())`
constructs a fresh `itertools.count` iterator on every call instead of
advancing one shared counter. -/
theorem get_next_rank_always_zero :
    get_next_rank_calls
        ⟨⟨784569⟩, ⟨100⟩, none, ⟨0, 4⟩, "dataset", fun _ => itertoolsCount⟩ 8 =
      [0, 0, 0, 0, 0, 0, 0, 0] ∧
    ([0, 0, 0, 0, 0, 0, 0, 0] : List ℕ) ≠ [0, 1, 2, 3, 0, 1, 2, 3] := by
  exact ⟨by decide, by decide⟩

/-- C6: when a Blended node resolves, branch `i` receives the context's
seed plus a branch-specific offset: 0 for every branch in legacy mode,
and `i * 697` otherwise. -/
theorem blended_branch_seed_eq (seed : ℤ) (i : ℕ) :
    blendedBranchSeed true seed i = seed ∧
    blendedBranchSeed false seed i = seed + i * 697 := by
  constructor
  · simp [blendedBranchSeed]
  · simp [blendedBranchSeed]

/-- C7: resolving a parameter-override node passes the wrapped dataset a
context whose config has only the explicitly-set override fields replaced
(an unset `seed` keeps the parent's value), while the parameters, the
cache directory, the distributed rank info, the dataset name and the
shared rank-counter callable are exactly those of the original context
(which, being a functional `dataclasses.replace` copy, is itself left
unchanged). -/
theorem sampled_update_context_spec (s : SamplingData) (patch : SamplingConfigPatch) :
    (sampledUpdateContext patch s).parameters = s.parameters ∧
    (sampledUpdateContext patch s).cache_directory = s.cache_directory ∧
    (sampledUpdateContext patch s).distributed = s.distributed ∧
    (sampledUpdateContext patch s).dataset_name = s.dataset_name ∧
    (sampledUpdateContext patch s).rank_counter = s.rank_counter ∧
    (patch.seed = none → (sampledUpdateContext patch s).config = s.config) ∧
    (∀ v, patch.seed = some v → (sampledUpdateContext patch s).config.seed = v) := by
  refine ⟨rfl, rfl, rfl, rfl, rfl, ?_, ?_⟩
  · intro h
    simp [sampledUpdateContext, update_config, mergeSamplingConfig, h]
  · intro v h
    simp [sampledUpdateContext, update_config, mergeSamplingConfig, h]

/-- Witness for C7 at a concrete context, once with the seed override set
to 42 and once with it unset. -/
theorem sampled_update_context_spec_witness :
    (sampledUpdateContext ⟨some 42⟩
        ⟨⟨784569⟩, ⟨100⟩, none, ⟨0, 4⟩, "dataset", fun _ => itertoolsCount⟩).config.seed = 42 ∧
    (sampledUpdateContext ⟨none⟩
        ⟨⟨784569⟩, ⟨100⟩, none, ⟨0, 4⟩, "dataset", fun _ => itertoolsCount⟩).config =
      ⟨784569⟩ := by
  constructor
  · exact (sampled_update_context_spec
      ⟨⟨784569⟩, ⟨100⟩, none, ⟨0, 4⟩, "dataset", fun _ => itertoolsCount⟩
      ⟨some 42⟩).2.2.2.2.2.2 42 rfl
  · exact (sampled_update_context_spec
      ⟨⟨784569⟩, ⟨100⟩, none, ⟨0, 4⟩, "dataset", fun _ => itertoolsCount⟩
      ⟨none⟩).2.2.2.2.2.1 rfl

theorem pyRound_nearest (q : ℚ) : |q - (pyRound q : ℚ)| ≤ 1 / 2 := by
  have h1 : (⌊q⌋ : ℚ) ≤ q := Int.floor_le q
  have h2 : q < (⌊q⌋ : ℚ) + 1 := Int.lt_floor_add_one q
  rw [abs_le, pyRound]
  split_ifs with ha hb hc <;> constructor <;> push_cast <;> linarith

theorem pyRound_tie_even (q : ℚ) (h : |q - (pyRound q : ℚ)| = 1 / 2) :
    pyRound q % 2 = 0 := by
  have h1 : (⌊q⌋ : ℚ) ≤ q := Int.floor_le q
  have h2 : q < (⌊q⌋ : ℚ) + 1 := Int.lt_floor_add_one q
  rw [pyRound] at h ⊢
  split_ifs at h ⊢ with ha hb hc
  · exfalso
    rw [abs_of_nonneg (by linarith)] at h
    linarith
  · exfalso
    rw [abs_of_nonpos (by push_cast; linarith)] at h
    push_cast at h
    linarith
  · exact hc
  · omega

/-- C8: building a Sliced node over a corpus of length `L` computes the
bounds `lo = round(begin * L)` and `hi = round(end * L)`, where `round` is
round-half-to-even (the rounded value is within 1/2 of the argument, and
an exact tie rounds to the even integer); the resulting slice has length
`hi - lo`; on a 10-element corpus, `begin=0, end=0.5` gives bounds
`(0, 5)` — length 5 starting at original index 0 — and
`begin=0.5, end=1` gives bounds `(5, 10)` — a slice starting at original
index 5. -/
theorem dataset_slice_bounds_spec :
    (∀ b e : ℚ, ∀ L : ℕ,
      datasetSliceBounds b e L = (pyRound (b * L), pyRound (e * L)) ∧
      datasetSliceLength b e L = pyRound (e * L) - pyRound (b * L)) ∧
    (∀ q : ℚ, |q - (pyRound q : ℚ)| ≤ 1 / 2 ∧
      (|q - (pyRound q : ℚ)| = 1 / 2 → pyRound q % 2 = 0)) ∧
    datasetSliceBounds 0 (1 / 2) 10 = (0, 5) ∧
    datasetSliceLength 0 (1 / 2) 10 = 5 ∧
    datasetSliceBounds (1 / 2) 1 10 = (5, 10) := by
  refine ⟨fun b e L => ⟨rfl, rfl⟩,
    fun q => ⟨pyRound_nearest q, pyRound_tie_even q⟩, ?_, ?_, ?_⟩
  · norm_num [datasetSliceBounds, pyRound]
  · norm_num [datasetSliceLength, datasetSliceBounds, pyRound]
  · norm_num [datasetSliceBounds, pyRound]

/-- Witness for C8: concrete slice bounds on a 10-element corpus, and the
concrete tie 5/2 rounding to the even integer 2. -/
theorem dataset_slice_bounds_spec_witness :
    datasetSliceBounds 0 (1 / 2) 10 = (0, 5) ∧ pyRound (5 / 2) % 2 = 0 := by
  refine ⟨dataset_slice_bounds_spec.2.2.1, ?_⟩
  refine (dataset_slice_bounds_spec.2.1 (5 / 2)).2 ?_
  norm_num [pyRound]

/-- C5 (amended): a Blended branch with normalized weight `w` and
requested total `n` is resolved with
`ceil(w * (n + 5 * sqrt(n * (1 - w))))` samples in legacy mode and
`ceil(w * n) + 1` otherwise, a pure function of `w`, `n` and the mode; the
default-mode count strictly exceeds the exact share `w * n`, while the
legacy-mode count is at least the exact share, strictly exceeding it
whenever `0 < w < 1` and `0 < n` (for `w = 1` or `w = 0` or `n = 0` it can
equal the share exactly). -/
theorem blended_branch_num_samples_spec (w : ℚ) (n : ℕ) (h0 : 0 ≤ w) (h1 : w ≤ 1) :
    (blendedBranchNumSamples false w n = ⌈w * (n : ℚ)⌉ + 1 ∧
      (w * n : ℚ) < ((blendedBranchNumSamples false w n : ℤ) : ℚ)) ∧
    (blendedBranchNumSamples true w n =
        ⌈(w : ℝ) * (n + 5 * Real.sqrt (n * (1 - (w : ℝ))))⌉ ∧
      (w : ℝ) * n ≤ ((blendedBranchNumSamples true w n : ℤ) : ℝ) ∧
      (0 < w → w < 1 → 0 < n →
        (w : ℝ) * n < ((blendedBranchNumSamples true w n : ℤ) : ℝ))) := by
  have hw0 : (0 : ℝ) ≤ (w : ℝ) := by exact_mod_cast h0
  have hs0 : 0 ≤ Real.sqrt (n * (1 - (w : ℝ))) := Real.sqrt_nonneg _
  have hceil := Int.le_ceil ((w : ℝ) * (n + 5 * Real.sqrt (n * (1 - (w : ℝ)))))
  refine ⟨⟨by simp [blendedBranchNumSamples], ?_⟩,
    by simp [blendedBranchNumSamples], ?_, ?_⟩
  · have hc := Int.le_ceil (w * (n : ℚ))
    have : blendedBranchNumSamples false w n = ⌈w * (n : ℚ)⌉ + 1 := by
      simp [blendedBranchNumSamples]
    rw [this]
    push_cast
    linarith
  · have : blendedBranchNumSamples true w n =
        ⌈(w : ℝ) * (n + 5 * Real.sqrt (n * (1 - (w : ℝ))))⌉ := by
      simp [blendedBranchNumSamples]
    rw [this]
    nlinarith [mul_nonneg hw0 (mul_nonneg (by norm_num : (0:ℝ) ≤ 5) hs0)]
  · intro hp hl hn
    have hwp : (0 : ℝ) < (w : ℝ) := by exact_mod_cast hp
    have hwl : (w : ℝ) < 1 := by exact_mod_cast hl
    have hnp : (0 : ℝ) < (n : ℝ) := by exact_mod_cast hn
    have hsp : 0 < Real.sqrt (n * (1 - (w : ℝ))) :=
      Real.sqrt_pos.mpr (by nlinarith)
    have : blendedBranchNumSamples true w n =
        ⌈(w : ℝ) * (n + 5 * Real.sqrt (n * (1 - (w : ℝ))))⌉ := by
      simp [blendedBranchNumSamples]
    rw [this]
    nlinarith [mul_pos hwp (mul_pos (by norm_num : (0:ℝ) < 5) hsp)]

/-- Witness for C5 (amended) at `w = 3/4`, `n = 64`: the default-mode
requested count strictly exceeds the exact share 48. -/
theorem blended_branch_num_samples_spec_witness :
    (0 : ℚ) ≤ 3 / 4 ∧
    ((3 / 4 : ℚ) * 64 < ((blendedBranchNumSamples false (3 / 4) 64 : ℤ) : ℚ)) := by
  exact ⟨by norm_num,
    ((blended_branch_num_samples_spec (3 / 4) 64 (by norm_num) (by norm_num)).1).2⟩

/-- C5 counterexample: the blend of two leaves with weights `[0, 1]`
passes validation, and in legacy mode its branch of normalized weight 1
with requested total 10 is resolved with exactly 10 samples — not
strictly more than its exact share `1 * 10`. -/
theorem blended_legacy_no_margin_cex :
    validate (.blended "blended" [.leaf 1, .leaf 1] [0, 1] true) =
      some (.blended "blended" [.leaf 1, .leaf 1] [0, 1] true) ∧
    blendedBranchNumSamples true 1 10 = 10 ∧
    ¬ ((1 : ℝ) * 10 < ((blendedBranchNumSamples true 1 10 : ℤ) : ℝ)) := by
  have hval : blendedBranchNumSamples true 1 10 = 10 := by
    have : blendedBranchNumSamples true 1 10 =
        ⌈((1 : ℚ) : ℝ) * (10 + 5 * Real.sqrt (10 * (1 - ((1 : ℚ) : ℝ))))⌉ := by
      simp [blendedBranchNumSamples]
    rw [this]
    norm_num
  refine ⟨by norm_num [validate, validateList, normalize_probabilities], hval, ?_⟩
  rw [hval]
  norm_num

end FastLLM
